import Mathlib

/-!
Verification of the LLM-ArXiv-Domain-Expert document pipeline.

Shallow embedding of the ingestion-to-vectorization pipeline:
cleaner (`clean_text`), chunker (`chunk_text`, `DocumentChunker.chunk`),
OCR backend-fallback engine (`OCRClient`), fetcher (`process_paper`),
embedder (`DocumentEmbedder.embed`), metadata aggregator
(`addChunksMetadata`) and the crawl step (`crawl_links`).
Python dicts are modelled as association lists, Python sets as
duplicate-free lists, raised exceptions as `Except` errors, network and
OCR effects as explicit world parameters.
-/

/-! ## Cleaner: `operations/cleaning.py`, `clean_text` -/

/-- Python regex `\s` at ASCII: space, tab, newline, carriage return,
vertical tab, form feed. -/
def isPySpace (c : Char) : Bool :=
  c = ' ' || c = '\t' || c = '\n' || c = '\x0d' || c = '\x0b' || c = '\x0c'

/-- Python regex `\w` at ASCII: alphanumeric or underscore. -/
def isPyWord (c : Char) : Bool :=
  c.isAlphanum || c = '_'

/-- Character class of `re.sub(r"[^\w\s.,!?]", " ", text)`: characters kept
unchanged by the first substitution of `clean_text`. -/
def isKeptChar (c : Char) : Bool :=
  isPyWord c || isPySpace c || c = '.' || c = ',' || c = '!' || c = '?'

/-- `re.sub(r"[^\w\s.,!?]", " ", text)`: every character outside the kept
class becomes one space. -/
def pySubNonKept (l : List Char) : List Char :=
  l.map (fun c => if isKeptChar c then c else ' ')

/-- `re.sub(r"\s+", " ", text)`: replace each maximal whitespace run by one
space. The flag records whether the previous character was whitespace
(i.e. whether we are inside a run whose space was already emitted). -/
def collapseWsAux (prevWs : Bool) : List Char → List Char
  | [] => []
  | c :: cs =>
    if isPySpace c then
      if prevWs then collapseWsAux true cs else ' ' :: collapseWsAux true cs
    else c :: collapseWsAux false cs

def collapseWs (l : List Char) : List Char := collapseWsAux false l

/-- Python `str.strip()`: drop leading and trailing whitespace. -/
def stripWs (l : List Char) : List Char :=
  ((l.dropWhile isPySpace).reverse.dropWhile isPySpace).reverse

/-- `clean_text` from `operations/cleaning.py`: substitute non-kept
characters by a space, collapse whitespace runs, strip. -/
def clean_text (s : String) : String :=
  ⟨stripWs (collapseWs (pySubNonKept s.data))⟩

/-! ### Cleaner lemmas -/

/-- No two adjacent whitespace characters. -/
def NoWsRun (l : List Char) : Prop :=
  List.Chain' (fun a b => ¬(isPySpace a = true ∧ isPySpace b = true)) l

theorem mem_pySubNonKept {l : List Char} {c : Char} (h : c ∈ pySubNonKept l) :
    isKeptChar c = true ∧ (c = ' ' ∨ c ∈ l) := by
  rcases List.mem_map.mp h with ⟨a, ha, rfl⟩
  by_cases hk : isKeptChar a = true
  · rw [if_pos hk]
    exact ⟨hk, Or.inr ha⟩
  · rw [if_neg hk]
    exact ⟨by decide, Or.inl rfl⟩

theorem collapseWsAux_cons_ws_true {a : Char} (as : List Char)
    (h : isPySpace a = true) :
    collapseWsAux true (a :: as) = collapseWsAux true as := by
  simp [collapseWsAux, h]

theorem collapseWsAux_cons_ws_false {a : Char} (as : List Char)
    (h : isPySpace a = true) :
    collapseWsAux false (a :: as) = ' ' :: collapseWsAux true as := by
  simp [collapseWsAux, h]

theorem collapseWsAux_cons_not {a : Char} (b : Bool) (as : List Char)
    (h : isPySpace a = false) :
    collapseWsAux b (a :: as) = a :: collapseWsAux false as := by
  simp [collapseWsAux, h]

theorem mem_collapseWsAux {b : Bool} {l : List Char} {c : Char}
    (h : c ∈ collapseWsAux b l) : c = ' ' ∨ (c ∈ l ∧ isPySpace c = false) := by
  induction l generalizing b with
  | nil => simp [collapseWsAux] at h
  | cons a as ih =>
    by_cases hs : isPySpace a = true
    · cases b with
      | true =>
        rw [collapseWsAux_cons_ws_true as hs] at h
        rcases ih h with h1 | ⟨h2, h3⟩
        · exact Or.inl h1
        · exact Or.inr ⟨List.mem_cons_of_mem _ h2, h3⟩
      | false =>
        rw [collapseWsAux_cons_ws_false as hs] at h
        rcases List.mem_cons.mp h with rfl | h
        · exact Or.inl rfl
        · rcases ih h with h1 | ⟨h2, h3⟩
          · exact Or.inl h1
          · exact Or.inr ⟨List.mem_cons_of_mem _ h2, h3⟩
    · rw [collapseWsAux_cons_not b as (by simpa using hs)] at h
      rcases List.mem_cons.mp h with rfl | h
      · exact Or.inr ⟨List.mem_cons_self _ _, by simpa using hs⟩
      · rcases ih h with h1 | ⟨h2, h3⟩
        · exact Or.inl h1
        · exact Or.inr ⟨List.mem_cons_of_mem _ h2, h3⟩

theorem collapseWsAux_head_chain (l : List Char) :
    NoWsRun (collapseWsAux false l) ∧ NoWsRun (collapseWsAux true l) ∧
      (∀ c, (collapseWsAux true l).head? = some c → isPySpace c = false) := by
  induction l with
  | nil => refine ⟨List.chain'_nil, List.chain'_nil, by simp [collapseWsAux]⟩
  | cons a as ih =>
    obtain ⟨ihF, ihT, ihH⟩ := ih
    by_cases hs : isPySpace a = true
    · refine ⟨?_, ?_, ?_⟩
      · rw [collapseWsAux_cons_ws_false as hs]
        simp only [NoWsRun, List.chain'_cons']
        refine ⟨?_, ihT⟩
        intro b hb h2
        exact absurd h2.2 (by simp [ihH b hb])
      · rw [collapseWsAux_cons_ws_true as hs]
        exact ihT
      · intro c hc
        rw [collapseWsAux_cons_ws_true as hs] at hc
        exact ihH c hc
    · have hs' : isPySpace a = false := by simpa using hs
      refine ⟨?_, ?_, ?_⟩
      · rw [collapseWsAux_cons_not false as hs']
        simp only [NoWsRun, List.chain'_cons']
        exact ⟨fun b _ h2 => absurd h2.1 (by simp [hs']), ihF⟩
      · rw [collapseWsAux_cons_not true as hs']
        simp only [NoWsRun, List.chain'_cons']
        exact ⟨fun b _ h2 => absurd h2.1 (by simp [hs']), ihF⟩
      · intro c hc
        rw [collapseWsAux_cons_not true as hs'] at hc
        simp only [List.head?_cons, Option.some.injEq] at hc
        subst hc
        exact hs'

theorem noWsRun_collapseWs (l : List Char) : NoWsRun (collapseWs l) :=
  (collapseWsAux_head_chain l).1

theorem collapseWsAux_id (l : List Char)
    (hsp : ∀ c ∈ l, isPySpace c = true → c = ' ') (hch : NoWsRun l) :
    collapseWsAux false l = l ∧
      ((∀ c, l.head? = some c → isPySpace c = false) → collapseWsAux true l = l) := by
  induction l with
  | nil => simp [collapseWsAux]
  | cons a as ih =>
    have hsp' : ∀ c ∈ as, isPySpace c = true → c = ' ' :=
      fun c hc => hsp c (List.mem_cons_of_mem _ hc)
    have hch' : NoWsRun as := (List.chain'_cons'.mp hch).2
    obtain ⟨ihF, ihT⟩ := ih hsp' hch'
    by_cases hs : isPySpace a = true
    · have ha : a = ' ' := hsp a (List.mem_cons_self _ _) hs
      have hhead : ∀ c, as.head? = some c → isPySpace c = false := by
        intro c hc
        have h2 := (List.chain'_cons'.mp hch).1 c hc
        by_contra hcc
        exact h2 ⟨hs, by simpa using hcc⟩
      constructor
      · rw [collapseWsAux_cons_ws_false as hs, ihT hhead, ha]
      · intro hh
        exact absurd (hh a (by simp)) (by simp [hs])
    · have hs' : isPySpace a = false := by simpa using hs
      constructor
      · rw [collapseWsAux_cons_not false as hs', ihF]
      · intro _
        rw [collapseWsAux_cons_not true as hs', ihF]

theorem head?_dropWhile_not (p : Char → Bool) (l : List Char) {c : Char}
    (h : (l.dropWhile p).head? = some c) : p c = false := by
  induction l with
  | nil => simp [List.dropWhile] at h
  | cons a as ih =>
    by_cases hp : p a = true
    · rw [List.dropWhile_cons, if_pos hp] at h
      exact ih h
    · rw [List.dropWhile_cons, if_neg hp] at h
      simp only [List.head?_cons, Option.some.injEq] at h
      subst h
      simpa using hp

theorem map_id_of_forall {l : List Char} {f : Char → Char}
    (h : ∀ c ∈ l, f c = c) : l.map f = l := by
  induction l with
  | nil => rfl
  | cons a as ih =>
    simp only [List.map_cons, h a (List.mem_cons_self _ _),
      ih (fun c hc => h c (List.mem_cons_of_mem _ hc))]

theorem mem_stripWs {l : List Char} {c : Char} (h : c ∈ stripWs l) : c ∈ l := by
  unfold stripWs at h
  rw [List.mem_reverse] at h
  have h2 := (List.dropWhile_sublist isPySpace).subset h
  rw [List.mem_reverse] at h2
  exact (List.dropWhile_sublist isPySpace).subset h2

theorem noWsRun_stripWs {l : List Char} (h : NoWsRun l) : NoWsRun (stripWs l) := by
  have flipWs : ∀ m : List Char, NoWsRun m → NoWsRun m.reverse := by
    intro m hm
    rw [NoWsRun, List.chain'_reverse]
    exact hm.imp (fun a b hab => fun hc => hab ⟨hc.2, hc.1⟩)
  have h1 : NoWsRun (l.dropWhile isPySpace) := h.suffix (List.dropWhile_suffix _)
  have h2 := flipWs _ h1
  have h3 : NoWsRun ((l.dropWhile isPySpace).reverse.dropWhile isPySpace) :=
    h2.suffix (List.dropWhile_suffix _)
  exact flipWs _ h3

theorem getLast?_of_suffix {l m : List Char} (hs : m <:+ l) (hm : m ≠ []) :
    l.getLast? = m.getLast? := by
  obtain ⟨t, rfl⟩ := hs
  rw [List.getLast?_append]
  have hsome : m.getLast?.isSome := List.getLast?_isSome.mpr hm
  obtain ⟨x, hx⟩ := Option.isSome_iff_exists.mp hsome
  simp [hx]

theorem stripWs_head_last (l : List Char) :
    (∀ c, (stripWs l).head? = some c → isPySpace c = false) ∧
      (∀ c, (stripWs l).getLast? = some c → isPySpace c = false) := by
  constructor
  · intro c hc
    unfold stripWs at hc
    rw [List.head?_reverse] at hc
    set M := (l.dropWhile isPySpace).reverse.dropWhile isPySpace with hM
    have hMne : M ≠ [] := by
      intro he
      rw [he] at hc
      simp at hc
    have hsuf : M <:+ (l.dropWhile isPySpace).reverse := List.dropWhile_suffix _
    rw [← getLast?_of_suffix hsuf hMne, List.getLast?_reverse] at hc
    exact head?_dropWhile_not _ _ hc
  · intro c hc
    unfold stripWs at hc
    rw [List.getLast?_reverse] at hc
    exact head?_dropWhile_not _ _ hc

theorem stripWs_id {l : List Char}
    (h1 : ∀ c, l.head? = some c → isPySpace c = false)
    (h2 : ∀ c, l.getLast? = some c → isPySpace c = false) : stripWs l = l := by
  have e1 : l.dropWhile isPySpace = l := by
    cases l with
    | nil => rfl
    | cons a as =>
      rw [List.dropWhile_cons, if_neg]
      simp [h1 a List.head?_cons]
  have e2 : l.reverse.dropWhile isPySpace = l.reverse := by
    cases hr : l.reverse with
    | nil => rfl
    | cons a as =>
      rw [List.dropWhile_cons, if_neg]
      have : l.getLast? = some a := by
        rw [← List.head?_reverse, hr, List.head?_cons]
      simp [h2 a this]
  unfold stripWs
  rw [e1, e2, List.reverse_reverse]

theorem clean_text_chars (s : String) :
    (∀ c ∈ (clean_text s).data,
        isKeptChar c = true ∧ (isPySpace c = true → c = ' ') ∧ (c = ' ' ∨ c ∈ s.data)) ∧
      NoWsRun (clean_text s).data ∧
      (∀ c, (clean_text s).data.head? = some c → isPySpace c = false) ∧
      (∀ c, (clean_text s).data.getLast? = some c → isPySpace c = false) := by
  have hdata : (clean_text s).data = stripWs (collapseWs (pySubNonKept s.data)) := rfl
  refine ⟨?_, ?_, ?_, ?_⟩
  · intro c hc
    rw [hdata] at hc
    have hc2 := mem_stripWs hc
    rcases mem_collapseWsAux hc2 with rfl | ⟨hc3, hns⟩
    · exact ⟨by decide, fun _ => rfl, Or.inl rfl⟩
    · obtain ⟨hk, ho⟩ := mem_pySubNonKept hc3
      exact ⟨hk, fun hws => absurd hws (by simp [hns]), ho⟩
  · rw [hdata]
    exact noWsRun_stripWs (noWsRun_collapseWs _)
  · rw [hdata]
    exact (stripWs_head_last _).1
  · rw [hdata]
    exact (stripWs_head_last _).2

/-- Claim C5. Cleaner normalization: `clean_text` replaces every character
that is not alphanumeric, underscore, whitespace or one of `.,!?` by a
space, collapses whitespace runs to one space and trims; in particular the
spec's concrete example cleans as stated. Formalized as: the concrete
example, plus, for every input, every output character is in the kept
class, the only whitespace in the output is a single space character, no
two adjacent output characters are whitespace, the output is trimmed, and
every output character is either a space or a character of the input. -/
theorem claim_C5_cleaner_normalization :
    clean_text "Hello,\tWorld!!\n\n  foo_bar" = "Hello, World!! foo_bar" ∧
      (∀ s : String, ∀ c ∈ (clean_text s).data,
        isKeptChar c = true ∧ (isPySpace c = true → c = ' ') ∧ (c = ' ' ∨ c ∈ s.data)) ∧
      (∀ s : String, NoWsRun (clean_text s).data) ∧
      (∀ s : String, ∀ c,
        ((clean_text s).data.head? = some c → isPySpace c = false) ∧
        ((clean_text s).data.getLast? = some c → isPySpace c = false)) := by
  refine ⟨by decide, ?_, ?_, ?_⟩
  · intro s
    exact (clean_text_chars s).1
  · intro s
    exact (clean_text_chars s).2.1
  · intro s c
    exact ⟨(clean_text_chars s).2.2.1 c, (clean_text_chars s).2.2.2 c⟩

theorem claim_C5_cleaner_normalization_witness :
    isKeptChar 'a' = true ∧ ('a' = ' ' → False) ∧ ('a' = ' ' ∨ 'a' ∈ ("a#b" : String).data) := by
  have h := claim_C5_cleaner_normalization.2.1 "a#b" 'a' (by decide)
  exact ⟨h.1, by decide, h.2.2⟩

/-- Claim C10. Cleaning idempotence: for every string `t`,
`clean_text (clean_text t) = clean_text t`. -/
theorem claim_C10_clean_text_idempotent (t : String) :
    clean_text (clean_text t) = clean_text t := by
  obtain ⟨hmem, hch, hh, hl⟩ := clean_text_chars t
  have hsub : pySubNonKept (clean_text t).data = (clean_text t).data :=
    map_id_of_forall (fun c hc => by rw [if_pos (hmem c hc).1])
  have hcol : collapseWs (clean_text t).data = (clean_text t).data :=
    (collapseWsAux_id _ (fun c hc => (hmem c hc).2.1) hch).1
  have hstr : stripWs (clean_text t).data = (clean_text t).data := stripWs_id hh hl
  show (⟨stripWs (collapseWs (pySubNonKept (clean_text t).data))⟩ : String) = clean_text t
  rw [hsub, hcol, hstr]

/-! ## Chunker: `preprocessing.py`, `DocumentChunker` -/

/-- Modelled from the spec: `chunk_text` (file `operations/chunking.py`,
absent from the sources; only its import and call sites are present).
Per §4.4, window `i` starts at `i * (size - overlap)`, the final window
may be shorter than `size`, and empty trailing windows are dropped.
The fuel argument (initially the text length) only makes the recursion
structural; with a positive step it is never exhausted. -/
def chunkTextAux (size step : Nat) : Nat → List Char → List (List Char)
  | _, [] => []
  | 0, _ => []
  | fuel + 1, l => l.take size :: chunkTextAux size step fuel (l.drop step)

/-- Modelled from the spec: `chunk_text(content, chunk_size, chunk_overlap)`
returns the overlapping windows of the content, in order. -/
def chunk_text (text : String) (chunk_size chunk_overlap : Nat) : List String :=
  (chunkTextAux chunk_size (chunk_size - chunk_overlap) text.data.length text.data).map
    (fun w => ⟨w⟩)

/-- `CleanedPaperDocument` (domain/cleaned_documents.py), the fields the
chunker reads. Ids are the stringified UUIDs. -/
structure CleanedPaperDocument where
  id : String
  content : String
  expert_id : String
deriving DecidableEq

/-- `PaperChunk` (domain/chunks.py), the fields produced by
`DocumentChunker.chunk`. `metadata` holds `(chunk_size, chunk_overlap)`. -/
structure PaperChunk where
  id : String
  content : String
  document_id : String
  expert_id : String
  metadata : Nat × Nat
deriving DecidableEq

namespace DocumentChunker

def CHUNK_SIZE : Nat := 250

def CHUNK_OVERLAP : Nat := 25

/-- `DocumentChunker.chunk`: split the cleaned content and give every chunk
the id `hashlib.md5(chunk.encode()).hexdigest()` — a pure function of the
chunk text, abstracted as the parameter `md5hex`. -/
def chunk (md5hex : String → String) (doc : CleanedPaperDocument) : List PaperChunk :=
  (chunk_text doc.content CHUNK_SIZE CHUNK_OVERLAP).map
    (fun c => ⟨md5hex c, c, doc.id, doc.expert_id, (CHUNK_SIZE, CHUNK_OVERLAP)⟩)

end DocumentChunker

/-- Claim C2. Chunk identity determinism: a chunk's id is the hash of its
exact text content, so two documents with the same cleaned content get the
same ordered sequence of chunk ids (re-chunking is reproducible and the
ids do not depend on the document's own id or expert), and any two chunks
with equal content — from any documents — have equal ids. -/
theorem claim_C2_chunk_id_determinism :
    (∀ (md5hex : String → String) (d1 d2 : CleanedPaperDocument),
      d1.content = d2.content →
      (DocumentChunker.chunk md5hex d1).map PaperChunk.id =
        (DocumentChunker.chunk md5hex d2).map PaperChunk.id) ∧
    (∀ (md5hex : String → String) (d1 d2 : CleanedPaperDocument) (c1 c2 : PaperChunk),
      c1 ∈ DocumentChunker.chunk md5hex d1 → c2 ∈ DocumentChunker.chunk md5hex d2 →
      c1.content = c2.content → c1.id = md5hex c1.content ∧ c1.id = c2.id) := by
  constructor
  · intro md5hex d1 d2 hc
    simp only [DocumentChunker.chunk, List.map_map, hc]
    exact List.map_congr_left (fun a _ => rfl)
  · intro md5hex d1 d2 c1 c2 h1 h2 hc
    simp only [DocumentChunker.chunk, List.mem_map] at h1 h2
    obtain ⟨w1, _, rfl⟩ := h1
    obtain ⟨w2, _, rfl⟩ := h2
    refine ⟨rfl, ?_⟩
    simp only at hc ⊢
    rw [hc]

theorem claim_C2_chunk_id_determinism_witness :
    (DocumentChunker.chunk (fun s => s) ⟨"doc1", "ab", "e1"⟩).map PaperChunk.id =
      (DocumentChunker.chunk (fun s => s) ⟨"doc2", "ab", "e2"⟩).map PaperChunk.id ∧
    (⟨"ab", "ab", "doc1", "e1", (250, 25)⟩ : PaperChunk).id = "ab" := by
  constructor
  · exact claim_C2_chunk_id_determinism.1 (fun s => s) ⟨"doc1", "ab", "e1"⟩
      ⟨"doc2", "ab", "e2"⟩ rfl
  · exact (claim_C2_chunk_id_determinism.2 (fun s => s) ⟨"doc1", "ab", "e1"⟩
      ⟨"doc2", "ab", "e2"⟩ ⟨"ab", "ab", "doc1", "e1", (250, 25)⟩
      ⟨"ab", "ab", "doc2", "e2", (250, 25)⟩ (by decide) (by decide) rfl).1

/-! ## Converter: `crawler.py`, `OCRClient`

`doc_converter.convert` either yields a `ConversionResult` (whose
`document` exports to markdown) or raises `ConversionError`; the
per-backend outcome is the parameter `attempt` (`none` = raised
`ConversionError`). `pop(0)` on an empty list raises `IndexError`. -/

structure ConvDocument where
  val : Nat
deriving DecidableEq

structure ConversionResult where
  document : ConvDocument
deriving DecidableEq

inductive PyErr where
  | conversionError
  | indexError
deriving DecidableEq

/-- The value `OCRClient.ocr` hands back on its three return paths:
exported markdown (first-try success), the raw `ConversionResult`
(fallback success returns `self._ocr(...)` without exporting), or
Python `None` (candidate list exhausted). -/
inductive OcrReturn where
  | markdown (s : String)
  | rawResult (r : ConversionResult)
  | pyNone
deriving DecidableEq

namespace OCRClient

/-- `OCRClient._ocr`: pops the first backend off `backends_to_try` (the
caller's list — `pop(0)` mutates it) and attempts conversion with it.
Returns the outcome, the remaining list, and the backends attempted by
this call (for the exactly-once accounting). -/
def _ocr (attempt : String → Option ConversionResult) :
    List String → (Except PyErr ConversionResult × List String × List String)
  | [] => (.error .indexError, [], [])
  | backend :: rest =>
    match attempt backend with
    | some conv_result => (.ok conv_result, rest, [backend])
    | none => (.error .conversionError, rest, [backend])

/-- `OCRClient.ocr`: try `_ocr`; on success export the document to
markdown; on `ConversionError`, if backends remain, return `self._ocr(...)`
directly (note: the source does not export this retry result, and a
`ConversionError` raised by the retry escapes the handler), else return
`None`. The second component is the list of backends attempted. -/
def ocr (attempt : String → Option ConversionResult)
    (export_to_markdown : ConvDocument → String)
    (backends_to_try : List String) : Except PyErr OcrReturn × List String :=
  match _ocr attempt backends_to_try with
  | (.ok conv_result, _, att) =>
    (.ok (.markdown (export_to_markdown conv_result.document)), att)
  | (.error .indexError, _, att) => (.error .indexError, att)
  | (.error .conversionError, rest, att) =>
    if rest.isEmpty then (.ok .pyNone, att)
    else
      match _ocr attempt rest with
      | (.ok conv_result, _, att2) => (.ok (.rawResult conv_result), att ++ att2)
      | (.error e, _, att2) => (.error e, att ++ att2)

end OCRClient

/-- Backend outcomes for the fallback-ordering scenario: `easyocr` raises
`ConversionError`, `tesseract_cli` succeeds with document 7. -/
def attemptFirstFails (backend : String) : Option ConversionResult :=
  if backend = "tesseract_cli" then some ⟨⟨7⟩⟩ else none

/-- Backend outcomes where every backend raises `ConversionError`. -/
def attemptAllFail (_backend : String) : Option ConversionResult := none

/-- Stub for `document.export_to_markdown()`. -/
def exportStub (d : ConvDocument) : String := "markdown of " ++ toString d.val

/-- Claim C3 (failing part). With backends `[A, B]` where `A` raises a
conversion failure and `B` succeeds, `ocr` does attempt `A` once and then
`B` once and nothing further — but it returns `B`'s raw `ConversionResult`
(the retry path skips `export_to_markdown`), not `B`'s normalized text,
contradicting the claim's "returns B's normalized text". -/
theorem claim_C3_fallback_returns_raw_result :
    OCRClient.ocr attemptFirstFails exportStub ["easyocr", "tesseract_cli"] =
      (.ok (.rawResult ⟨⟨7⟩⟩), ["easyocr", "tesseract_cli"]) ∧
    ∀ s : String,
      (OCRClient.ocr attemptFirstFails exportStub ["easyocr", "tesseract_cli"]).1 ≠
        .ok (.markdown s) := by
  refine ⟨rfl, ?_⟩
  intro s h
  simp [OCRClient.ocr, OCRClient._ocr, attemptFirstFails] at h

/-- Claim C4 (failing part). With backends `[A, B]` that both raise a
conversion failure, each backend is attempted exactly once, but the second
`ConversionError` escapes the `except` handler: `ocr` raises instead of
returning `None`. Only when a single backend remains does it return
`None` as the claim demands (second conjunct). -/
theorem claim_C4_exhaustion_raises :
    OCRClient.ocr attemptAllFail exportStub ["easyocr", "tesseract_cli"] =
      (.error .conversionError, ["easyocr", "tesseract_cli"]) ∧
    (OCRClient.ocr attemptAllFail exportStub ["easyocr", "tesseract_cli"]).1 ≠
      .ok .pyNone ∧
    OCRClient.ocr attemptAllFail exportStub ["easyocr"] = (.ok .pyNone, ["easyocr"]) := by
  refine ⟨rfl, ?_, rfl⟩
  intro h
  simp [OCRClient.ocr, OCRClient._ocr, attemptAllFail] at h

/-! ## Fetcher: `crawler.py`, `ArxivClient.process_paper`

The external effects are a world parameter: `fetchMetadata` models
`_fetch_metadata` (some (title, published_at) on HTTP 200 with a parseable
entry), `fetchPdf` models `_fetch_pdf`, and `processPdf` models
`_process_pdf`/OCR, where `none` covers both a `None` result and any
exception caught by `process_paper`'s blanket handler. The Mongo paper
collection is the explicit `store` list; `.save()` appends. -/

structure ArxivWorld where
  fetchMetadata : String → Option (String × String)
  fetchPdf : String → Option String
  processPdf : String → String → Option String

structure PaperInfo where
  title : String
  published_at : String
  content : String
  link : String
deriving DecidableEq

/-- `PaperDocument` (domain/documents.py), the fields `process_paper`
persists. -/
structure StoredPaper where
  title : String
  content : String
  expert_id : String
  link : String
  published_at : String
deriving DecidableEq

/-- Run-collapse for `re.sub(r' +', ' ', ...)` (spaces only). -/
def collapseSpacesAux (prev : Bool) : List Char → List Char
  | [] => []
  | c :: cs =>
    if c = ' ' then
      if prev then collapseSpacesAux true cs else ' ' :: collapseSpacesAux true cs
    else c :: collapseSpacesAux false cs

/-- `ArxivClient._sanitize_title` with the default `max_length = 100`:
delete newlines and tabs, delete characters outside `[\w\s-]`, collapse
space runs, truncate to 100, strip spaces. -/
def _sanitize_title (title : String) : String :=
  let cleaned := title.data.filter (fun c => !(c = '\n' || c = '\t'))
  let cleaned := cleaned.filter (fun c => isPyWord c || isPySpace c || c = '-')
  let cleaned := (collapseSpacesAux false cleaned).take 100
  ⟨((cleaned.dropWhile (· = ' ')).reverse.dropWhile (· = ' ')).reverse⟩

/-- `ArxivClient._fetch_paper`: metadata then PDF; the returned info's
`link` field is the `arxiv_url` argument itself. -/
def _fetch_paper (w : ArxivWorld) (arxiv_url : String) : Option PaperInfo :=
  match w.fetchMetadata arxiv_url with
  | none => none
  | some (title, published) =>
    match w.fetchPdf arxiv_url with
    | none => none
    | some pdf_content => some ⟨title, published, pdf_content, arxiv_url⟩

/-- `ArxivClient.process_paper`: if a paper with this link exists, return
`True` without touching the world; else fetch, OCR, and persist exactly
one new `PaperDocument`, returning the success flag and the store. -/
def process_paper (w : ArxivWorld) (link : String) (expert : String)
    (store : List StoredPaper) : Bool × List StoredPaper :=
  if store.any (fun p => p.link == link) then (true, store)
  else
    match _fetch_paper w link with
    | none => (false, store)
    | some paper_info =>
      match w.processPdf paper_info.content paper_info.title with
      | none => (false, store)
      | some markdown_content =>
        (true, store ++ [⟨_sanitize_title paper_info.title, markdown_content,
          expert, paper_info.link, paper_info.published_at⟩])

theorem process_paper_of_exists {w : ArxivWorld} {link expert : String}
    {store : List StoredPaper} (h : ∃ p ∈ store, p.link = link) :
    process_paper w link expert store = (true, store) := by
  have hany : store.any (fun p => p.link == link) = true := by
    rw [List.any_eq_true]
    obtain ⟨p, hp, he⟩ := h
    exact ⟨p, hp, by simp [he]⟩
  simp [process_paper, hany]

/-- Claim C1. Fetcher dedup idempotence: if a paper with the link already
exists, `process_paper` is a success that persists nothing and consults
the outside world not at all (the result is the same for every world);
consequently, starting from a store without that link, one successful call
persists exactly one paper with the link and a second call is a no-op
success. -/
theorem claim_C1_fetcher_dedup_idempotence (w : ArxivWorld) (link expert : String)
    (store : List StoredPaper) :
    ((∃ p ∈ store, p.link = link) →
      process_paper w link expert store = (true, store) ∧
      ∀ w2 : ArxivWorld, process_paper w2 link expert store =
        process_paper w link expert store) ∧
    (store.countP (fun p => p.link == link) = 0 →
      (process_paper w link expert store).1 = true →
      (process_paper w link expert store).2.countP (fun p => p.link == link) = 1 ∧
      ∀ w2 : ArxivWorld, process_paper w2 link expert
          (process_paper w link expert store).2 =
        (true, (process_paper w link expert store).2)) := by
  constructor
  · intro h
    refine ⟨process_paper_of_exists h, fun w2 => ?_⟩
    rw [process_paper_of_exists h, process_paper_of_exists h]
  · intro hcount
    have hnone : ∀ p ∈ store, ¬(p.link == link) = true := List.countP_eq_zero.mp hcount
    have hany : store.any (fun p => p.link == link) = false := by
      rw [← Bool.not_eq_true, List.any_eq_true]
      rintro ⟨p, hp, he⟩
      exact hnone p hp he
    intro hsucc
    rcases hf : _fetch_paper w link with _ | info
    · rw [process_paper, if_neg (by simp [hany]), hf] at hsucc
      simp at hsucc
    · rcases hp : w.processPdf info.content info.title with _ | md
      · rw [process_paper, if_neg (by simp [hany]), hf] at hsucc
        simp [hp] at hsucc
      · have hlink : info.link = link := by
          unfold _fetch_paper at hf
          rcases hm : w.fetchMetadata link with _ | tp
          · rw [hm] at hf
            exact absurd hf (by simp)
          · rcases hpdf : w.fetchPdf link with _ | pdf
            · rw [hm, hpdf] at hf
              rcases tp with ⟨t, p⟩
              exact absurd hf (by simp)
            · rcases tp with ⟨t, p⟩
              rw [hm, hpdf] at hf
              cases hf
              rfl
        have hres : process_paper w link expert store =
            (true, store ++ [⟨_sanitize_title info.title, md, expert,
              info.link, info.published_at⟩]) := by
          rw [process_paper, if_neg (by simp [hany]), hf]
          simp [hp]
        rw [hres]
        constructor
        · rw [List.countP_append, hcount]
          simp [List.countP_cons, hlink]
        · intro w2
          exact process_paper_of_exists
            ⟨⟨_sanitize_title info.title, md, expert, info.link, info.published_at⟩,
              by simp, hlink⟩

/-- A concrete world in which every fetch and conversion succeeds. -/
def worldAllOk : ArxivWorld :=
  ⟨fun _ => some ("A Title", "2020-01-01"), fun _ => some "pdfbytes",
    fun _ _ => some "markdown text"⟩

theorem claim_C1_fetcher_dedup_idempotence_witness :
    (process_paper worldAllOk "L" "E" []).2.countP (fun p => p.link == "L") = 1 ∧
      ∀ w2 : ArxivWorld, process_paper w2 "L" "E" (process_paper worldAllOk "L" "E" []).2 =
        (true, (process_paper worldAllOk "L" "E" []).2) :=
  (claim_C1_fetcher_dedup_idempotence worldAllOk "L" "E" []).2 (by rfl) (by rfl)

/-! ## Crawl step: `steps/etl/crawl_links.py` -/

/-- The per-link loop of `crawl_links`: process each link in order against
the evolving store, accumulating `successful_crawls` and the metadata
counts (`successful`, `total`). -/
def crawlLinksAux (w : ArxivWorld) (expert : String) :
    List String → List StoredPaper → Nat → Nat → List StoredPaper × Nat × Nat
  | [], store, succ, total => (store, succ, total)
  | link :: rest, store, succ, total =>
    let r := process_paper w link expert store
    crawlLinksAux w expert rest r.2 (succ + if r.1 then 1 else 0) (total + 1)

/-- `crawl_links`: runs the loop and returns `links` — the very input
list — as the step output, alongside the final store and the
`successful`/`total` metadata counts. -/
def crawl_links (w : ArxivWorld) (expert : String) (links : List String)
    (store : List StoredPaper) : List String × List StoredPaper × Nat × Nat :=
  let r := crawlLinksAux w expert links store 0 0
  (links, r.1, r.2.1, r.2.2)

/-- The sequence of per-link success flags of one crawl run. -/
def crawlFlags (w : ArxivWorld) (expert : String) :
    List String → List StoredPaper → List Bool
  | [], _ => []
  | link :: rest, store =>
    let r := process_paper w link expert store
    r.1 :: crawlFlags w expert rest r.2

/-- A world in which only link "L2" fails (its metadata fetch fails). -/
def worldL2Fails : ArxivWorld :=
  ⟨fun url => if url = "L2" then none else some ("A Title", "2020-01-01"),
    fun _ => some "pdfbytes", fun _ _ => some "markdown text"⟩

/-- Claim C9 counterexample: crawling `["L1", "L2"]` where `L1` succeeds
and `L2` fails returns the whole input list, not the complement `["L2"]`
of the successes, even though the metadata records 1 success out of 2. -/
theorem claim_C9_counterexample :
    (crawl_links worldL2Fails "E" ["L1", "L2"] []).1 ≠ ["L2"] ∧
      (crawl_links worldL2Fails "E" ["L1", "L2"] []).1 = ["L1", "L2"] ∧
      (crawl_links worldL2Fails "E" ["L1", "L2"] []).2.2 = (1, 2) := by
  refine ⟨by decide, rfl, rfl⟩

theorem crawlLinksAux_spec (w : ArxivWorld) (expert : String) (links : List String)
    (store : List StoredPaper) (succ total : Nat) :
    crawlLinksAux w expert links store succ total =
      ((crawlLinksAux w expert links store 0 0).1,
        succ + (crawlFlags w expert links store).count true, total + links.length) := by
  induction links generalizing store succ total with
  | nil => simp [crawlLinksAux, crawlFlags]
  | cons link rest ih =>
    simp only [crawlLinksAux, crawlFlags]
    rw [ih, ih ((process_paper w link expert store).2) (0 + _) (0 + 1)]
    have hcnt : (((process_paper w link expert store).1 ::
        crawlFlags w expert rest (process_paper w link expert store).2).count true) =
        (crawlFlags w expert rest (process_paper w link expert store).2).count true +
          if (process_paper w link expert store).1 then 1 else 0 := by
      rcases h : (process_paper w link expert store).1 with _ | _ <;>
        simp [List.count_cons, h]
    refine Prod.ext rfl (Prod.ext ?_ ?_) <;> simp [hcnt] <;> omega

/-- Claim C9 amended: `crawl_links` returns the full input list of links
unchanged (its docstring's "processed links"), together with metadata
counting the successful crawls and the total, from which the caller can
compute the success ratio; it does not return the complement of the
successes. -/
theorem claim_C9_amended (w : ArxivWorld) (expert : String) (links : List String)
    (store : List StoredPaper) :
    (crawl_links w expert links store).1 = links ∧
      (crawl_links w expert links store).2.2.1 =
        (crawlFlags w expert links store).count true ∧
      (crawl_links w expert links store).2.2.2 = links.length := by
  have h := crawlLinksAux_spec w expert links store 0 0
  refine ⟨rfl, ?_, ?_⟩
  · show (crawlLinksAux w expert links store 0 0).2.1 = _
    rw [h]
    simp
  · show (crawlLinksAux w expert links store 0 0).2.2 = _
    rw [h]
    simp

/-! ## Embedder: `preprocessing.py`, `DocumentEmbedder`

The embedding model (`cls._embedding_model(inputs, to_list=True)`) is the
parameter `model`; its provenance metadata (`model_id`, `embedding_size`,
`max_input_length`) is the parameter `meta`. Vector entries are modelled
as integers. `zip(doc, embeddings, strict=True)` raises `ValueError` on a
length mismatch: modelled as `none`. The input here is a list of
`PaperChunk`, whose category is `PAPERS`, so the closed category dispatch
takes the `_create_embedded_paper` branch. -/

structure EmbeddingMeta where
  embedding_model_id : String
  embedding_size : Nat
  max_input_length : Nat
deriving DecidableEq

/-- `EmbeddedPaperChunk` (domain/embedded_chunks.py), the fields produced
by the embedder. -/
structure EmbeddedPaperChunk where
  id : String
  content : String
  embedding : List Int
  document_id : String
  expert_id : String
  metadata : EmbeddingMeta
deriving DecidableEq

namespace DocumentEmbedder

/-- `DocumentEmbedder._create_embedded_paper`. -/
def _create_embedded_paper (meta : EmbeddingMeta) (doc : PaperChunk)
    (embedding : List Int) : EmbeddedPaperChunk :=
  ⟨doc.id, doc.content, embedding, doc.document_id, doc.expert_id, meta⟩

/-- `DocumentEmbedder.embed`, list shape: empty input returns `[]` without
invoking the model; otherwise one batched model call, then a strict zip of
the inputs with the returned vectors, in order. -/
def embed (model : List String → List (List Int)) (meta : EmbeddingMeta)
    (docs : List PaperChunk) : Option (List EmbeddedPaperChunk) :=
  if docs.length = 0 then some []
  else
    let embeddings := model (docs.map PaperChunk.content)
    if embeddings.length = docs.length then
      some (List.zipWith (fun d e => _create_embedded_paper meta d e) docs embeddings)
    else none

end DocumentEmbedder

/-- Claim C6. Embedder order preservation: for a non-empty input sequence
whose model call returns one vector per input, `embed` succeeds with an
output of the same length in which entry `i` carries input `i`'s id and
content together with the `i`-th vector returned by the model. -/
theorem claim_C6_embed_order_preservation (model : List String → List (List Int))
    (meta : EmbeddingMeta) (docs : List PaperChunk) (hne : docs ≠ [])
    (hlen : (model (docs.map PaperChunk.content)).length = docs.length) :
    ∃ out, DocumentEmbedder.embed model meta docs = some out ∧
      out.length = docs.length ∧
      ∀ (i : Nat) (h1 : i < out.length) (h2 : i < docs.length)
        (h3 : i < (model (docs.map PaperChunk.content)).length),
        out[i].id = docs[i].id ∧ out[i].content = docs[i].content ∧
          out[i].embedding = (model (docs.map PaperChunk.content))[i] := by
  have hlen0 : ¬docs.length = 0 := by
    simpa [List.length_eq_zero] using hne
  refine ⟨List.zipWith (fun d e => DocumentEmbedder._create_embedded_paper meta d e)
    docs (model (docs.map PaperChunk.content)), ?_, ?_, ?_⟩
  · rw [DocumentEmbedder.embed, if_neg hlen0]
    simp [hlen]
  · rw [List.length_zipWith, hlen, Nat.min_self]
  · intro i h1 h2 h3
    rw [List.getElem_zipWith]
    exact ⟨rfl, rfl, rfl⟩

/-- A stub model mapping each content string to a one-entry vector of its
length, so the witness vectors visibly derive from the matching input. -/
def stubModel (inputs : List String) : List (List Int) :=
  inputs.map (fun s => [(s.length : Int)])

def stubMeta : EmbeddingMeta := ⟨"stub-model", 1, 512⟩

theorem claim_C6_embed_order_preservation_witness :
    ∃ out, DocumentEmbedder.embed stubModel stubMeta
        [⟨"id1", "aa", "d", "e", (250, 25)⟩, ⟨"id2", "bbb", "d", "e", (250, 25)⟩] =
        some out ∧
      out.length =
        ([⟨"id1", "aa", "d", "e", (250, 25)⟩,
          ⟨"id2", "bbb", "d", "e", (250, 25)⟩] : List PaperChunk).length ∧
      ∀ (i : Nat) (h1 : i < out.length)
        (h2 : i < ([⟨"id1", "aa", "d", "e", (250, 25)⟩,
          ⟨"id2", "bbb", "d", "e", (250, 25)⟩] : List PaperChunk).length)
        (h3 : i < (stubModel (([⟨"id1", "aa", "d", "e", (250, 25)⟩,
          ⟨"id2", "bbb", "d", "e", (250, 25)⟩] : List PaperChunk).map
            PaperChunk.content)).length),
        out[i].id = ([⟨"id1", "aa", "d", "e", (250, 25)⟩,
            ⟨"id2", "bbb", "d", "e", (250, 25)⟩] : List PaperChunk)[i].id ∧
          out[i].content = ([⟨"id1", "aa", "d", "e", (250, 25)⟩,
            ⟨"id2", "bbb", "d", "e", (250, 25)⟩] : List PaperChunk)[i].content ∧
          out[i].embedding = (stubModel (([⟨"id1", "aa", "d", "e", (250, 25)⟩,
            ⟨"id2", "bbb", "d", "e", (250, 25)⟩] : List PaperChunk).map
              PaperChunk.content))[i] :=
  claim_C6_embed_order_preservation stubModel stubMeta
    [⟨"id1", "aa", "d", "e", (250, 25)⟩, ⟨"id2", "bbb", "d", "e", (250, 25)⟩]
    (by decide) (by decide)

/-! ## Metadata aggregator: `steps/feature_engineering/rag.py`

Python dicts are association lists over string keys (`dictFind?`,
`dictSet`, `dictModify`); a Python set is the `DocIds.pySet` form, a
serialized list the `DocIds.pyList` form. -/

def dictFind? {α : Type} : List (String × α) → String → Option α
  | [], _ => none
  | (k2, v) :: rest, k => if k2 = k then some v else dictFind? rest k

def dictContains {α : Type} (m : List (String × α)) (k : String) : Bool :=
  (dictFind? m k).isSome

/-- Python `m[k] = v`: replace the (unique) entry, else append. -/
def dictSet {α : Type} : List (String × α) → String → α → List (String × α)
  | [], k, v => [(k, v)]
  | (k2, v2) :: rest, k, v =>
    if k2 = k then (k, v) :: rest else (k2, v2) :: dictSet rest k v

/-- Python `m[k] = f(m[k])` for a present key. -/
def dictModify {α : Type} : List (String × α) → String → (α → α) → List (String × α)
  | [], _, _ => []
  | (k2, v) :: rest, k, f =>
    if k2 = k then (k2, f v) :: rest else (k2, v) :: dictModify rest k f

theorem dictFind?_set_self {α : Type} (m : List (String × α)) (k : String) (v : α) :
    dictFind? (dictSet m k v) k = some v := by
  induction m with
  | nil => simp [dictSet, dictFind?]
  | cons p rest ih =>
    rcases p with ⟨k2, v2⟩
    by_cases h : k2 = k
    · simp [dictSet, h, dictFind?]
    · simp [dictSet, h, dictFind?, ih]

theorem dictFind?_modify_self {α : Type} (m : List (String × α)) (k : String)
    (f : α → α) : dictFind? (dictModify m k f) k = (dictFind? m k).map f := by
  induction m with
  | nil => simp [dictModify, dictFind?]
  | cons p rest ih =>
    rcases p with ⟨k2, v⟩
    by_cases h : k2 = k
    · simp [dictModify, h, dictFind?]
    · simp [dictModify, h, dictFind?, ih]

theorem dictFind?_mapVals {α β : Type} (m : List (String × α)) (F : α → β)
    (k : String) :
    dictFind? (m.map (fun p => (p.1, F p.2))) k = (dictFind? m k).map F := by
  induction m with
  | nil => simp [dictFind?]
  | cons p rest ih =>
    rcases p with ⟨k2, v⟩
    by_cases h : k2 = k
    · simp [dictFind?, h]
    · simp [dictFind?, h, ih]

/-- The expert's `documents` field: a Python set during a call's chunk
loop, a Python list after the end-of-call serialization conversion. -/
inductive DocIds where
  | pySet (elems : List String)
  | pyList (elems : List String)
deriving DecidableEq

def DocIds.elems : DocIds → List String
  | .pySet s => s
  | .pyList l => l

def DocIds.isPyList : DocIds → Bool
  | .pySet _ => false
  | .pyList _ => true

/-- Lines 55-58 of rag.py: `if isinstance(..., list): ... = set(...)`.
Python `set(xs)` deduplicates; an existing set is left untouched. -/
def DocIds.toPySet : DocIds → DocIds
  | .pySet s => .pySet s
  | .pyList l => .pySet l.dedup

/-- Python `set.add`: append if absent. -/
def pyInsert (x : String) (s : List String) : List String :=
  if x ∈ s then s else s ++ [x]

structure DocStats where
  num_chunks : Nat
  metadata : Nat × Nat
deriving DecidableEq

structure ExpertStats where
  num_chunks : Nat
  documents : DocIds
deriving DecidableEq

structure CatStats where
  documents : List (String × DocStats)
  experts : List (String × ExpertStats)
  num_chunks : Nat
deriving DecidableEq

/-- The value of `metadata["chunking"]`: category → per-category stats. -/
abbrev ChunkingMeta := List (String × CatStats)

/-- `chunk.get_category()` for a `PaperChunk` is the papers category. -/
def PaperChunk.get_category (_ : PaperChunk) : String := "papers"

/-- The per-category body of one iteration of the `for chunk in chunks`
loop of `_add_chunks_metadata` (rag.py lines 42-63): document stats,
expert stats (with the list→set reconversion and `set.add`), and the
category chunk counter. -/
def addChunkCat (chunk : PaperChunk) (cs : CatStats) : CatStats :=
  let docs := if dictContains cs.documents chunk.document_id then cs.documents
    else dictSet cs.documents chunk.document_id ⟨0, chunk.metadata⟩
  let docs := dictModify docs chunk.document_id
    (fun d => { d with num_chunks := d.num_chunks + 1 })
  let experts := if dictContains cs.experts chunk.expert_id then cs.experts
    else dictSet cs.experts chunk.expert_id ⟨0, .pySet []⟩
  let experts := dictModify experts chunk.expert_id
    (fun e => { e with num_chunks := e.num_chunks + 1 })
  let experts := dictModify experts chunk.expert_id
    (fun e => { e with documents := e.documents.toPySet })
  let experts := dictModify experts chunk.expert_id
    (fun e => { e with documents := .pySet (pyInsert chunk.document_id e.documents.elems) })
  { documents := docs, experts := experts, num_chunks := cs.num_chunks + 1 }

/-- One iteration of the chunk loop (rag.py lines 38-63): ensure the
category entry exists (line 39-40), then update it. -/
def addChunkStep (chunk : PaperChunk) (metadata : ChunkingMeta) : ChunkingMeta :=
  let m := if dictContains metadata chunk.get_category then metadata
    else dictSet metadata chunk.get_category ⟨[], [], 0⟩
  dictModify m chunk.get_category (addChunkCat chunk)

/-- `expert_data["documents"] = list(expert_data["documents"])`. -/
def serializeExpert (e : ExpertStats) : ExpertStats :=
  ⟨e.num_chunks, .pyList e.documents.elems⟩

def serializeCat (cs : CatStats) : CatStats :=
  ⟨cs.documents, cs.experts.map (fun q => (q.1, serializeExpert q.2)), cs.num_chunks⟩

/-- rag.py lines 66-68: at the end of the call, convert every expert's
document collection to a list, in every category. -/
def serializeDocSets (metadata : ChunkingMeta) : ChunkingMeta :=
  metadata.map (fun p => (p.1, serializeCat p.2))

/-- `_add_chunks_metadata`: fold the chunks into the accumulator, then
serialize the document-id sets. -/
def _add_chunks_metadata (chunks : List PaperChunk) (metadata : ChunkingMeta) :
    ChunkingMeta :=
  serializeDocSets (chunks.foldl (fun m c => addChunkStep c m) metadata)

/-- The `metadata["chunking"]` accumulation of `chunk_and_embed` (rag.py
lines 14-19): starting from the empty dict, one `_add_chunks_metadata`
call per cleaned document. -/
def chunkingMetadataRun (md5hex : String → String)
    (docs : List CleanedPaperDocument) : ChunkingMeta :=
  docs.foldl
    (fun acc d => _add_chunks_metadata (DocumentChunker.chunk md5hex d) acc) []

/-! ### Aggregator observers -/

def docNumChunks (m : ChunkingMeta) (doc : String) : Nat :=
  (Option.map DocStats.num_chunks
    ((dictFind? m "papers").bind (fun cs => dictFind? cs.documents doc))).getD 0

def expertNumChunks (m : ChunkingMeta) (expert : String) : Nat :=
  (Option.map ExpertStats.num_chunks
    ((dictFind? m "papers").bind (fun cs => dictFind? cs.experts expert))).getD 0

/-- How many times `doc` occurs in `expert`'s document collection. -/
def expertDocOccurrences (m : ChunkingMeta) (expert doc : String) : Nat :=
  (Option.map (fun e => ExpertStats.documents e |>.elems.count doc)
    ((dictFind? m "papers").bind (fun cs => dictFind? cs.experts expert))).getD 0

/-- The size of `expert`'s document collection. -/
def expertDocsSize (m : ChunkingMeta) (expert : String) : Nat :=
  (Option.map (fun e => ExpertStats.documents e |>.elems.length)
    ((dictFind? m "papers").bind (fun cs => dictFind? cs.experts expert))).getD 0

/-- The form (set or list) of `expert`'s document collection. -/
def expertDocsField (m : ChunkingMeta) (expert : String) : Option DocIds :=
  Option.map ExpertStats.documents
    ((dictFind? m "papers").bind (fun cs => dictFind? cs.experts expert))

/-- Well-formedness: any set-form document collection is duplicate-free
(Python sets cannot hold duplicates). -/
def WfMeta (m : ChunkingMeta) : Prop :=
  ∀ cs ∈ m, ∀ e ∈ cs.2.experts, ∀ s, e.2.documents = .pySet s → s.Nodup

/-! ### Aggregator lemmas -/

theorem dictFind?_mem {α : Type} {m : List (String × α)} {k : String} {v : α}
    (h : dictFind? m k = some v) : (k, v) ∈ m := by
  induction m with
  | nil => simp [dictFind?] at h
  | cons p rest ih =>
    rcases p with ⟨k2, v2⟩
    by_cases hk : k2 = k
    · rw [dictFind?, if_pos hk] at h
      subst hk
      cases h
      exact List.mem_cons_self _ _
    · rw [dictFind?, if_neg hk] at h
      exact List.mem_cons_of_mem _ (ih h)

theorem pyInsert_nodup (x : String) (s : List String) (h : s.Nodup) :
    (pyInsert x s).Nodup := by
  unfold pyInsert
  by_cases hx : x ∈ s
  · rwa [if_pos hx]
  · rw [if_neg hx]
    simp [List.nodup_append, h, hx]

theorem count_pyInsert_self (x : String) (s : List String) (h : s.Nodup) :
    (pyInsert x s).count x = 1 := by
  unfold pyInsert
  by_cases hx : x ∈ s
  · rw [if_pos hx]
    induction s with
    | nil => simp at hx
    | cons a as ih =>
      rcases List.mem_cons.mp hx with rfl | hx2
      · have h0 : as.count x = 0 := List.count_eq_zero_of_not_mem (List.Nodup.not_mem h)
        simp [List.count_cons_self, h0]
      · have hne : x ≠ a := by
          intro he
          subst he
          exact (List.Nodup.not_mem h) hx2
        rw [List.count_cons_of_ne hne]
        exact ih (List.Nodup.of_cons h) hx2
  · rw [if_neg hx]
    rw [List.count_append, List.count_eq_zero_of_not_mem hx]
    simp

theorem toPySet_elems_nodup (d : DocIds) (h : ∀ s, d = .pySet s → s.Nodup) :
    d.toPySet.elems.Nodup := by
  cases d with
  | pySet s => exact h s rfl
  | pyList l => exact List.nodup_dedup l

theorem addChunkStep_find (c : PaperChunk) (m : ChunkingMeta) :
    dictFind? (addChunkStep c m) "papers" =
      some (addChunkCat c ((dictFind? m "papers").getD ⟨[], [], 0⟩)) := by
  unfold addChunkStep PaperChunk.get_category
  by_cases h : dictContains m "papers" = true
  · rw [if_pos h, dictFind?_modify_self]
    unfold dictContains at h
    rcases hf : dictFind? m "papers" with _ | cs
    · rw [hf] at h
      simp at h
    · simp [hf]
  · rw [if_neg h, dictFind?_modify_self, dictFind?_set_self]
    unfold dictContains at h
    rcases hf : dictFind? m "papers" with _ | cs
    · simp
    · rw [hf] at h
      simp at h

theorem addChunkCat_doc (c : PaperChunk) (cs : CatStats) :
    dictFind? (addChunkCat c cs).documents c.document_id =
      some ⟨((dictFind? cs.documents c.document_id).getD ⟨0, c.metadata⟩).num_chunks + 1,
        ((dictFind? cs.documents c.document_id).getD ⟨0, c.metadata⟩).metadata⟩ := by
  have hdocs : (addChunkCat c cs).documents =
      dictModify (if dictContains cs.documents c.document_id then cs.documents
        else dictSet cs.documents c.document_id ⟨0, c.metadata⟩) c.document_id
        (fun d => { d with num_chunks := d.num_chunks + 1 }) := rfl
  rw [hdocs]
  by_cases h : dictContains cs.documents c.document_id = true
  · rw [if_pos h, dictFind?_modify_self]
    unfold dictContains at h
    rcases hf : dictFind? cs.documents c.document_id with _ | d
    · rw [hf] at h
      simp at h
    · simp [hf]
  · rw [if_neg h, dictFind?_modify_self, dictFind?_set_self]
    unfold dictContains at h
    rcases hf : dictFind? cs.documents c.document_id with _ | d
    · simp
    · rw [hf] at h
      simp at h

theorem addChunkCat_expert (c : PaperChunk) (cs : CatStats) :
    dictFind? (addChunkCat c cs).experts c.expert_id =
      some ⟨((dictFind? cs.experts c.expert_id).getD ⟨0, .pySet []⟩).num_chunks + 1,
        .pySet (pyInsert c.document_id
          ((dictFind? cs.experts c.expert_id).getD
            ⟨0, .pySet []⟩).documents.toPySet.elems)⟩ := by
  have hexp : (addChunkCat c cs).experts =
      dictModify (dictModify (dictModify
        (if dictContains cs.experts c.expert_id then cs.experts
          else dictSet cs.experts c.expert_id ⟨0, .pySet []⟩)
        c.expert_id (fun e => { e with num_chunks := e.num_chunks + 1 }))
        c.expert_id (fun e => { e with documents := e.documents.toPySet }))
        c.expert_id (fun e =>
          { e with documents := .pySet (pyInsert c.document_id e.documents.elems) }) := rfl
  rw [hexp, dictFind?_modify_self, dictFind?_modify_self, dictFind?_modify_self]
  by_cases h : dictContains cs.experts c.expert_id = true
  · rw [if_pos h]
    unfold dictContains at h
    rcases hf : dictFind? cs.experts c.expert_id with _ | e
    · rw [hf] at h
      simp at h
    · simp [hf]
  · rw [if_neg h, dictFind?_set_self]
    unfold dictContains at h
    rcases hf : dictFind? cs.experts c.expert_id with _ | e
    · simp [DocIds.toPySet, DocIds.elems]
    · rw [hf] at h
      simp at h

/-- The document collection the step reads for the chunk's expert: set-form
contents are duplicate-free. This is the only part of well-formedness the
merge lemmas need. -/
def StepReadNodup (c : PaperChunk) (m : ChunkingMeta) : Prop :=
  (((dictFind? ((dictFind? m "papers").getD ⟨[], [], 0⟩).experts c.expert_id).getD
    ⟨0, .pySet []⟩).documents.toPySet.elems).Nodup

theorem stepReadNodup_of_wf {m : ChunkingMeta} (hwf : WfMeta m) (c : PaperChunk) :
    StepReadNodup c m := by
  unfold StepReadNodup
  rcases hm : dictFind? m "papers" with _ | cs
  · simp [dictFind?, DocIds.toPySet, DocIds.elems]
  · simp only [Option.getD_some]
    rcases he : dictFind? cs.experts c.expert_id with _ | e
    · simp [DocIds.toPySet, DocIds.elems]
    · simp only [Option.getD_some]
      exact toPySet_elems_nodup _
        (fun s hs => hwf _ (dictFind?_mem hm) _ (dictFind?_mem he) s hs)

theorem stepReadNodup_step {m : ChunkingMeta} {c : PaperChunk}
    (h : StepReadNodup c m) : StepReadNodup c (addChunkStep c m) := by
  unfold StepReadNodup at h ⊢
  rw [addChunkStep_find]
  simp only [Option.getD_some]
  rw [addChunkCat_expert]
  simp only [Option.getD_some, DocIds.toPySet, DocIds.elems]
  exact pyInsert_nodup _ _ h

theorem docNumChunks_step (c : PaperChunk) (m : ChunkingMeta) :
    docNumChunks (addChunkStep c m) c.document_id =
      docNumChunks m c.document_id + 1 := by
  unfold docNumChunks
  rw [addChunkStep_find]
  simp only [Option.some_bind]
  rw [addChunkCat_doc]
  rcases hm : dictFind? m "papers" with _ | cs
  · simp [dictFind?]
  · simp only [Option.getD_some, Option.some_bind]
    rcases hd : dictFind? cs.documents c.document_id with _ | d <;> simp [hd]

theorem expertNumChunks_step (c : PaperChunk) (m : ChunkingMeta) :
    expertNumChunks (addChunkStep c m) c.expert_id =
      expertNumChunks m c.expert_id + 1 := by
  unfold expertNumChunks
  rw [addChunkStep_find]
  simp only [Option.some_bind]
  rw [addChunkCat_expert]
  rcases hm : dictFind? m "papers" with _ | cs
  · simp [dictFind?]
  · simp only [Option.getD_some, Option.some_bind]
    rcases he : dictFind? cs.experts c.expert_id with _ | e <;> simp [he]

theorem expertDocOcc_step (c : PaperChunk) (m : ChunkingMeta)
    (h : StepReadNodup c m) :
    expertDocOccurrences (addChunkStep c m) c.expert_id c.document_id = 1 := by
  unfold StepReadNodup at h
  unfold expertDocOccurrences
  rw [addChunkStep_find]
  simp only [Option.some_bind]
  rw [addChunkCat_expert]
  simp only [Option.map_some', Option.getD_some, ExpertStats.documents, DocIds.elems]
  exact count_pyInsert_self _ _ h

theorem expertDocsSize_two_steps_fresh (c : PaperChunk) (m : ChunkingMeta)
    (h : dictFind? m "papers" = none) :
    expertDocsSize (addChunkStep c (addChunkStep c m)) c.expert_id = 1 := by
  unfold expertDocsSize
  rw [addChunkStep_find, addChunkStep_find, h]
  simp only [Option.getD_none, Option.getD_some, Option.some_bind]
  rw [addChunkCat_expert, addChunkCat_expert]
  simp [dictFind?, DocIds.toPySet, DocIds.elems, pyInsert]

theorem serialize_docNumChunks (m : ChunkingMeta) (doc : String) :
    docNumChunks (serializeDocSets m) doc = docNumChunks m doc := by
  unfold docNumChunks serializeDocSets
  rw [dictFind?_mapVals]
  rcases hm : dictFind? m "papers" with _ | cs <;> simp [hm, serializeCat]

theorem serialize_expertNumChunks (m : ChunkingMeta) (expert : String) :
    expertNumChunks (serializeDocSets m) expert = expertNumChunks m expert := by
  unfold expertNumChunks serializeDocSets
  rw [dictFind?_mapVals]
  rcases hm : dictFind? m "papers" with _ | cs
  · simp [hm]
  · simp only [hm, Option.map_some', Option.some_bind, serializeCat]
    rw [dictFind?_mapVals]
    rcases he : dictFind? cs.experts expert with _ | e <;> simp [he, serializeExpert]

theorem serialize_expertDocOcc (m : ChunkingMeta) (expert doc : String) :
    expertDocOccurrences (serializeDocSets m) expert doc =
      expertDocOccurrences m expert doc := by
  unfold expertDocOccurrences serializeDocSets
  rw [dictFind?_mapVals]
  rcases hm : dictFind? m "papers" with _ | cs
  · simp [hm]
  · simp only [hm, Option.map_some', Option.some_bind, serializeCat]
    rw [dictFind?_mapVals]
    rcases he : dictFind? cs.experts expert with _ | e <;>
      simp [he, serializeExpert, DocIds.elems]

theorem serialize_expertDocsSize (m : ChunkingMeta) (expert : String) :
    expertDocsSize (serializeDocSets m) expert = expertDocsSize m expert := by
  unfold expertDocsSize serializeDocSets
  rw [dictFind?_mapVals]
  rcases hm : dictFind? m "papers" with _ | cs
  · simp [hm]
  · simp only [hm, Option.map_some', Option.some_bind, serializeCat]
    rw [dictFind?_mapVals]
    rcases he : dictFind? cs.experts expert with _ | e <;>
      simp [he, serializeExpert, DocIds.elems]

/-- After serialization every collection is a list, so the set-form
well-formedness condition holds vacuously. -/
theorem stepReadNodup_serialize (c : PaperChunk) (m : ChunkingMeta) :
    StepReadNodup c (serializeDocSets m) := by
  unfold StepReadNodup serializeDocSets
  rw [dictFind?_mapVals]
  rcases hm : dictFind? m "papers" with _ | cs
  · simp [dictFind?, DocIds.toPySet, DocIds.elems]
  · simp only [Option.map_some', Option.getD_some, serializeCat]
    rw [dictFind?_mapVals]
    rcases he : dictFind? cs.experts c.expert_id with _ | e
    · simp [DocIds.toPySet, DocIds.elems]
    · simp only [Option.map_some', Option.getD_some, serializeExpert,
        DocIds.toPySet, DocIds.elems]
      exact List.nodup_dedup _

/-- Claim C7. Aggregator merge idempotence under duplicates: folding the
same chunk in twice — within one `_add_chunks_metadata` call or across two
successive calls — increments the chunk's document chunk count by 2 and
the owning expert's chunk count by 2, while the expert's distinct-document
collection holds the chunk's document id exactly once (and, starting from
a fresh accumulator, has size exactly 1). -/
theorem claim_C7_aggregator_merge_idempotence (m : ChunkingMeta) (c : PaperChunk)
    (hwf : WfMeta m) :
    docNumChunks (_add_chunks_metadata [c, c] m) c.document_id =
      docNumChunks m c.document_id + 2 ∧
    expertNumChunks (_add_chunks_metadata [c, c] m) c.expert_id =
      expertNumChunks m c.expert_id + 2 ∧
    expertDocOccurrences (_add_chunks_metadata [c, c] m) c.expert_id c.document_id = 1 ∧
    (dictFind? m "papers" = none →
      expertDocsSize (_add_chunks_metadata [c, c] m) c.expert_id = 1) ∧
    docNumChunks (_add_chunks_metadata [c] (_add_chunks_metadata [c] m))
      c.document_id = docNumChunks m c.document_id + 2 ∧
    expertDocOccurrences (_add_chunks_metadata [c] (_add_chunks_metadata [c] m))
      c.expert_id c.document_id = 1 := by
  have hfold2 : _add_chunks_metadata [c, c] m =
      serializeDocSets (addChunkStep c (addChunkStep c m)) := rfl
  have hfold1 : ∀ x : ChunkingMeta,
      _add_chunks_metadata [c] x = serializeDocSets (addChunkStep c x) := fun _ => rfl
  refine ⟨?_, ?_, ?_, ?_, ?_, ?_⟩
  · rw [hfold2, serialize_docNumChunks, docNumChunks_step, docNumChunks_step]
  · rw [hfold2, serialize_expertNumChunks, expertNumChunks_step, expertNumChunks_step]
  · rw [hfold2, serialize_expertDocOcc]
    exact expertDocOcc_step c (addChunkStep c m)
      (stepReadNodup_step (stepReadNodup_of_wf hwf c))
  · intro h
    rw [hfold2, serialize_expertDocsSize]
    exact expertDocsSize_two_steps_fresh c m h
  · rw [hfold1, hfold1, serialize_docNumChunks, docNumChunks_step,
      serialize_docNumChunks, docNumChunks_step]
  · rw [hfold1, hfold1, serialize_expertDocOcc]
    exact expertDocOcc_step c _ (stepReadNodup_serialize c (addChunkStep c m))

/-- The duplicate chunk used in the aggregator witnesses. -/
def cDup : PaperChunk := ⟨"h1", "text", "doc1", "exp1", (250, 25)⟩

theorem claim_C7_aggregator_merge_idempotence_witness :
    docNumChunks (_add_chunks_metadata [cDup, cDup] []) "doc1" = 2 ∧
      expertNumChunks (_add_chunks_metadata [cDup, cDup] []) "exp1" = 2 ∧
      expertDocOccurrences (_add_chunks_metadata [cDup, cDup] []) "exp1" "doc1" = 1 ∧
      expertDocsSize (_add_chunks_metadata [cDup, cDup] []) "exp1" = 1 := by
  have h := claim_C7_aggregator_merge_idempotence [] cDup
    (by intro cs hcs; exact absurd hcs (List.not_mem_nil _))
  exact ⟨by simpa using h.1, by simpa using h.2.1, h.2.2.1, h.2.2.2.1 rfl⟩

/-- The first document of the two-document run used against claim C8. -/
def docRun1 : CleanedPaperDocument := ⟨"doc1", "ab", "exp1"⟩

/-- The second document of the two-document run used against claim C8. -/
def docRun2 : CleanedPaperDocument := ⟨"doc2", "cd", "exp1"⟩

/-- Claim C8 counterexample: in a two-document run, the accumulator that
the first `_add_chunks_metadata` call hands to the second — while merges
of the run are still pending — already holds the expert's document
collection in serialized list form: the set-to-list conversion ran at the
end of the first call, i.e. during accumulation, not exactly once after
all merges complete. -/
theorem claim_C8_counterexample :
    chunkingMetadataRun (fun s => s) [docRun1, docRun2] =
      _add_chunks_metadata (DocumentChunker.chunk (fun s => s) docRun2)
        (_add_chunks_metadata (DocumentChunker.chunk (fun s => s) docRun1) []) ∧
    expertDocsField
      (_add_chunks_metadata (DocumentChunker.chunk (fun s => s) docRun1) [])
      "exp1" = some (.pyList ["doc1"]) :=
  ⟨rfl, by decide⟩

/-- Claim C8 amended: the set-to-list conversion runs at the end of every
`_add_chunks_metadata` call — once per call, hence once per document in a
run, not once per run — so between calls every expert's collection is in
list form, and a call reconverts the list to a set when it next touches
that expert (`addChunkStep` leaves the touched expert's collection in set
form until the call's final serialization). -/
theorem claim_C8_amended_serialize_per_call :
    (∀ (chunks : List PaperChunk) (m : ChunkingMeta),
      ∀ p ∈ _add_chunks_metadata chunks m, ∀ q ∈ p.2.experts,
        q.2.documents.isPyList = true) ∧
    (∀ (c : PaperChunk) (m : ChunkingMeta), ∃ s,
      expertDocsField (addChunkStep c m) c.expert_id = some (.pySet s)) := by
  constructor
  · intro chunks m p hp q hq
    unfold _add_chunks_metadata serializeDocSets at hp
    rcases List.mem_map.mp hp with ⟨p0, _, rfl⟩
    simp only [serializeCat] at hq
    rcases List.mem_map.mp hq with ⟨q0, _, rfl⟩
    rfl
  · intro c m
    refine ⟨pyInsert c.document_id
      (((dictFind? ((dictFind? m "papers").getD ⟨[], [], 0⟩).experts c.expert_id).getD
        ⟨0, .pySet []⟩).documents.toPySet.elems), ?_⟩
    unfold expertDocsField
    rw [addChunkStep_find]
    simp only [Option.some_bind]
    rw [addChunkCat_expert]
    simp only [Option.map_some']

theorem claim_C8_amended_serialize_per_call_witness :
    (DocIds.pyList ["doc1"]).isPyList = true :=
  claim_C8_amended_serialize_per_call.1 [cDup] []
    ("papers", ⟨[("doc1", ⟨1, (250, 25)⟩)], [("exp1", ⟨1, .pyList ["doc1"]⟩)], 1⟩)
    (by decide) ("exp1", ⟨1, .pyList ["doc1"]⟩) (by decide)
